import Mathlib

/-!
Verification development for the TrustGraph pipeline
(trustlayer_plugin/scripts/trustgraph).  Python sources are shallowly
embedded: strings are modelled as lists of ASCII characters, Python dicts
with optionally-present keys as structures with Option fields, floats as
rationals, and the side effects of the unresolved-mention log and the
storage fan-out as explicit state passing.  External primitives
(uuid suffixes, wall-clock timestamps, the sha256 digest) are passed in as
parameters.  Non-structural recursions from the source are given a fuel
parameter; every top-level entry point supplies fuel that provably or
evidently exceeds the recursion depth, so the embedded functions agree with
the Python on all inputs.
-/

/-- Python regex class \s restricted to ASCII: space, tab, newline,
carriage return, vertical tab, form feed. -/
def wsChar (c : Char) : Bool :=
  c = ' ' || c = '\t' || c = '\n' || c = '\r' || c = '\x0b' || c = '\x0c'

/-- Python regex class \w restricted to ASCII: letters, digits, underscore. -/
def wordChar (c : Char) : Bool :=
  c.isAlphanum || c = '_'

/-- Characters kept (not replaced by a space) by clean_text, i.e. the class
[^\w\s\x27] is replaced: word characters, whitespace and apostrophes stay. -/
def keepChar (c : Char) : Bool :=
  wordChar c || wsChar c || c = '\''

/-- Python str.lower on a character list (ASCII model). -/
def pyLowerL (l : List Char) : List Char :=
  l.map Char.toLower

/-- Python str.lower on a string (ASCII model). -/
def pyLowerS (s : String) : String :=
  ⟨pyLowerL s.data⟩

/-- Python min on two numbers: the first argument when it is not larger.
Defined by a direct comparison so that it evaluates by kernel reduction. -/
def pyMin (a b : ℚ) : ℚ := if a ≤ b then a else b

/-- Python max on two numbers: the first argument when it is not smaller. -/
def pyMax (a b : ℚ) : ℚ := if b ≤ a then a else b

/-- Bool test: the first list is a leading segment of the second. -/
def startsWithL : List Char → List Char → Bool
  | [], _ => true
  | _ :: _, [] => false
  | a :: as, b :: bs => a == b && startsWithL as bs

/-- Python substring containment `needle in hay` on character lists. -/
def substrL (needle : List Char) : List Char → Bool
  | [] => needle.isEmpty
  | c :: rest => startsWithL needle (c :: rest) || substrL needle rest

/-- State machine counting whitespace-separated words; `inw` records whether
the previous character belonged to a word.  `cwAux l false` equals Python
`len(l.split())`. -/
def cwAux : List Char → Bool → Nat
  | [], _ => 0
  | c :: rest, inw =>
    if wsChar c then cwAux rest false
    else (if inw then 0 else 1) + cwAux rest true

/-- Number of whitespace-separated words, Python `len(text.split())`. -/
def countWords (l : List Char) : Nat := cwAux l false

/-- The `inw` flag left by `cwAux` after scanning `l` starting from `f`:
`f` for an empty list, otherwise true iff the last character is not
whitespace. -/
def endFlag : List Char → Bool → Bool
  | [], f => f
  | c :: rest, _ => endFlag rest (!wsChar c)

/-! ## Preprocessor (preprocessor.py, DataPreprocessor.clean_text) -/

/-- One attempt to match the regex `https?://\S+` at the head of `l` against
a fixed scheme `pre` ("https://" or "http://"): the scheme must be a leading
segment and be followed by at least one non-whitespace character; on success
return the suffix after the maximal non-whitespace run. -/
def urlTail (pre l : List Char) : Option (List Char) :=
  if startsWithL pre l then
    match l.drop pre.length with
    | [] => none
    | c :: rest =>
      if wsChar c then none
      else some ((c :: rest).dropWhile (fun d => !wsChar d))
  else none

/-- Leftmost match of `https?://\S+` at the head of `l`; the regex engine
prefers the longer scheme `https://` (greedy `s?`), falling back to
`http://`. -/
def urlMatchOpt (l : List Char) : Option (List Char) :=
  match urlTail ("https://".data) l with
  | some r => some r
  | none => urlTail ("http://".data) l

/-- `re.sub(r'https?://\S+', '', text)`: scan left to right, removing each
non-overlapping leftmost match.  Fuel bounds the number of scan steps; each
step consumes at least one character, so fuel `l.length` suffices and the
zero-fuel branch is unreachable from `stripUrls`. -/
def stripUrlsF : Nat → List Char → List Char
  | 0, l => l
  | _ + 1, [] => []
  | fuel + 1, c :: rest =>
    match urlMatchOpt (c :: rest) with
    | some r => stripUrlsF fuel r
    | none => c :: stripUrlsF fuel rest

/-- URL removal with adequate fuel. -/
def stripUrls (l : List Char) : List Char :=
  stripUrlsF (l.length + 1) l

/-- `re.sub(r'[^\w\s\x27]', ' ', text)`: every character outside the kept
class becomes a space. -/
def replSpecial (l : List Char) : List Char :=
  l.map (fun c => if keepChar c then c else ' ')

/-- `re.sub(r'\s+', ' ', text)`: each maximal whitespace run collapses to a
single space.  The flag records whether we are inside a run already
represented by an emitted space. -/
def collapseWsF : List Char → Bool → List Char
  | [], _ => []
  | c :: rest, inWs =>
    if wsChar c then
      if inWs then collapseWsF rest true else ' ' :: collapseWsF rest true
    else c :: collapseWsF rest false

/-- Whitespace-run collapsing starting outside any run. -/
def collapseWs (l : List Char) : List Char := collapseWsF l false

/-- Python str.lstrip (whitespace). -/
def lstripL (l : List Char) : List Char := l.dropWhile wsChar

/-- Python str.rstrip (whitespace). -/
def rstripL (l : List Char) : List Char := (l.reverse.dropWhile wsChar).reverse

/-- Python str.strip (whitespace). -/
def pyStripL (l : List Char) : List Char := rstripL (lstripL l)

/-- DataPreprocessor.clean_text on character lists: empty input short
circuits to empty, otherwise URLs are removed, special characters become
spaces, whitespace runs collapse and the ends are stripped. -/
def cleanL (l : List Char) : List Char :=
  if l = [] then []
  else pyStripL (collapseWs (replSpecial (stripUrls l)))

/-- DataPreprocessor.clean_text. -/
def cleanText (s : String) : String :=
  ⟨cleanL s.data⟩

/-- Characters that can occur in a cleaned text: word characters,
apostrophes and plain spaces. -/
def cleanChar (c : Char) : Prop :=
  wordChar c = true ∨ c = '\'' ∨ c = ' '

/-- No two adjacent characters are both whitespace. -/
def noAdjWs : List Char → Prop
  | [] => True
  | [_] => True
  | a :: b :: rest => ¬(wsChar a = true ∧ wsChar b = true) ∧ noAdjWs (b :: rest)

/-! ## ContentAnalyzer (content_analyzer.py) -/

/-- Positive sentiment keywords of analyze_sentiment. -/
def positiveKeywords : List String :=
  ["love", "great", "excellent", "amazing", "perfect", "recommend",
   "awesome", "fantastic", "wonderful", "best", "favorite", "worth"]

/-- Negative sentiment keywords of analyze_sentiment. -/
def negativeKeywords : List String :=
  ["hate", "terrible", "awful", "disappointing", "waste", "avoid",
   "bad", "worst", "horrible", "useless", "regret", "return"]

/-- Neutral indicator keywords of analyze_sentiment. -/
def neutralKeywords : List String :=
  ["okay", "ok", "fine", "average", "decent", "alright", "so-so"]

/-- `sum(1 for word in kws if word in text_lower)`: the number of keywords
from the list that occur as substrings of the lowered text (each keyword
counted at most once, however often it occurs). -/
def kwCount (kws : List String) (tl : List Char) : Nat :=
  (kws.filter (fun w => substrL w.data tl)).length

/-- ContentAnalyzer.analyze_sentiment: rule-based label and confidence. -/
def analyzeSentiment (text : String) : String × ℚ :=
  let tl := pyLowerL text.data
  let pc := kwCount positiveKeywords tl
  let nc := kwCount negativeKeywords tl
  if 0 < pc ∧ nc = 0 then ("positive", pyMin (1/2 + (pc : ℚ) * (1/10)) (9/10))
  else if 0 < nc ∧ pc = 0 then ("negative", pyMin (1/2 + (nc : ℚ) * (1/10)) (9/10))
  else if 0 < pc ∧ 0 < nc then
    (if nc < pc then ("mixed", 7/10)
     else if pc < nc then ("mixed", 7/10)
     else ("mixed", 3/5))
  else if 0 < kwCount neutralKeywords tl then ("neutral", 7/10)
  else ("neutral", 1/2)

/-- Python str.count for a nonempty needle: number of non-overlapping
occurrences scanning from the left; for the empty needle Python returns
`len(hay) + 1`.  Fuel bounds scan steps, `hay.length + 1` suffices. -/
def countOccF : Nat → List Char → List Char → Nat
  | 0, _, _ => 0
  | fuel + 1, needle, hay =>
    if needle = [] then hay.length + 1
    else match hay with
      | [] => 0
      | c :: rest =>
        if startsWithL needle (c :: rest) then
          1 + countOccF fuel needle ((c :: rest).drop needle.length)
        else countOccF fuel needle rest

/-- Python str.count with adequate fuel. -/
def countOcc (needle hay : List Char) : Nat :=
  countOccF (hay.length + 1) needle hay

/-- Total number of occurrences of the listed keywords in the lowered text.
This follows the SPEC reading of "count occurrences" (for comparison against
kwCount, which is what the code computes). -/
def specOccTotal (kws : List String) (tl : List Char) : Nat :=
  (kws.map (fun w => countOcc w.data tl)).foldl (· + ·) 0

/-- Sentence separator characters of the regex `[.!?]+\s+`. -/
def sentPunct (c : Char) : Bool :=
  c = '.' || c = '!' || c = '?'

/-- Match of the separator regex `[.!?]+\s+` at the head of `l`: one or more
punctuation characters followed by one or more whitespace characters; on
success return the suffix after both maximal runs (regex backtracking can
never produce a different split, since shortening the punctuation run leaves
a punctuation character where whitespace is required). -/
def sentSepOpt (l : List Char) : Option (List Char) :=
  if l.takeWhile sentPunct = [] then none
  else
    let afterP := l.dropWhile sentPunct
    if afterP.takeWhile wsChar = [] then none
    else some (afterP.dropWhile wsChar)

/-- `re.split(r'[.!?]+\s+', text)`: pieces between non-overlapping leftmost
separator matches.  `acc` holds the current piece reversed.  Fuel bounds scan
steps; each step consumes at least one character, so `l.length + 1`
suffices. -/
def sentSplitF : Nat → List Char → List Char → List (List Char)
  | 0, _, acc => [acc.reverse]
  | _ + 1, [], acc => [acc.reverse]
  | fuel + 1, c :: rest, acc =>
    match sentSepOpt (c :: rest) with
    | some r => acc.reverse :: sentSplitF fuel r []
    | none => sentSplitF fuel rest (c :: acc)

/-- Sentence split with adequate fuel. -/
def sentSplit (l : List Char) : List (List Char) :=
  sentSplitF (l.length + 1) l []

/-- The sentences _rule_based_summary keeps: pieces of the sentence split
with strictly more than 3 words. -/
def retainedSentences (text : String) : List (List Char) :=
  (sentSplit text.data).filter (fun s => 3 < countWords s)

/-- The while loop of _rule_based_summary: append each next sentence (joined
with ". ") while the tracked word total is below the budget and the addition
stays within it; the index always advances. -/
def greedyAcc (maxLen : Nat) : List (List Char) → List Char → Nat → List Char
  | [], summary, _ => summary
  | s :: rest, summary, wc =>
    if wc < maxLen then
      if wc + countWords s ≤ maxLen then
        greedyAcc maxLen rest (summary ++ '.' :: ' ' :: s) (wc + countWords s)
      else greedyAcc maxLen rest summary wc
    else summary

/-- ContentAnalyzer._rule_based_summary. -/
def ruleBasedSummary (text : String) (maxLen : Nat) : String :=
  match retainedSentences text with
  | [] => text
  | s0 :: rest => ⟨greedyAcc maxLen rest s0 (countWords s0)⟩

/-- ContentAnalyzer.generate_summary in the configuration the claims are
about (no ML summarizer available, so the transformers branch is absent):
identity under the word budget, else the rule-based fallback. -/
def generateSummary (text : String) (maxLen : Nat) : String :=
  if countWords text.data ≤ maxLen then text
  else ruleBasedSummary text maxLen

/-- The feedback dict consumed by calculate_authenticity and
create_trust_atom.  Option fields model possibly-absent dict keys, read via
`.get` with the source defaults. -/
structure Feedback where
  text : Option String
  source : Option String
  timestamp : Option String
  username : Option String
  score : Option Int
  permalink : Option String
  authenticity_score : Option ℚ
  account_age_days : Option Int
  verified_purchase : Option Bool
  subreddit : Option String
  post_title : Option String
  post_score : Option Int
  video_title : Option String
  channel_name : Option String
  video_views : Option Int
  timestamp_in_video : Option String
  product_title : Option String
  star_rating : Option Int
  review_title : Option String
  deriving DecidableEq

/-- A Feedback with every key absent, for building small concrete inputs. -/
def emptyFeedback : Feedback :=
  ⟨none, none, none, none, none, none, none, none, none, none, none, none,
   none, none, none, none, none, none, none⟩

/-- Python truthiness of `feedback.get(key)` for an integer-valued key:
absent and zero are falsy. -/
def truthyInt (o : Option Int) : Bool :=
  o.getD 0 ≠ 0

/-- Python truthiness of `feedback.get(key)` for a boolean-valued key. -/
def truthyBool (o : Option Bool) : Bool :=
  o.getD false

/-- ContentAnalyzer.calculate_authenticity, including the source's
`if upvotes > 10: ... elif upvotes > 50: ...` branch ordering. -/
def calculateAuthenticity (fb : Feedback) : ℚ :=
  let score : ℚ := 1/2
  let source := pyLowerS (fb.source.getD "")
  let score :=
    if source = "reddit" then
      let upvotes := fb.score.getD 0
      let score := if upvotes > 10 then score + 1/10
                   else if upvotes > 50 then score + 2/10
                   else score
      if truthyInt fb.account_age_days then
        (if fb.account_age_days.getD 0 > 365 then score + 1/10 else score)
      else score
    else if source = "youtube" then
      let likes := fb.score.getD 0
      if likes > 5 then score + 1/10
      else if likes > 20 then score + 2/10
      else score
    else score
  let score := if truthyBool fb.verified_purchase then score + 2/10 else score
  let textLength := countWords (fb.text.getD "").data
  let score := if textLength < 5 then score - 1/10
               else if textLength > 30 then score + 1/10
               else score
  pyMax (1/10) (pyMin score 1)

/-! ## ProductMatcher (product_matcher.py)

The SequenceMatcher.ratio of difflib is embedded below without the autojunk
heuristic (which only alters behaviour when the second string has at least
200 characters); every concrete evaluation in this file uses far shorter
strings, where the two agree exactly. -/

/-- One row step of the find_longest_match dynamic program: given `a[i]` and
the previous row of common-suffix lengths `old` (indexed by positions of
`b`), produce the new row and fold the best-block update over `j` in
ascending order with the strict `k > bestsize` rule of difflib. -/
def flmRowBest (a b : List Char) (blo bhi i : Nat)
    (old : List Nat) (best : Nat × Nat × Nat) : List Nat × (Nat × Nat × Nat) :=
  let ai := a.getD i ' '
  let row := (List.range b.length).map (fun j =>
    if blo ≤ j && j < bhi && (b.getD j ' ' == ai) then
      (if j = 0 then 0 else old.getD (j - 1) 0) + 1
    else 0)
  let newBest := (List.range b.length).foldl (fun bst j =>
    let k := row.getD j 0
    if k > bst.2.2 then (i + 1 - k, j + 1 - k, k) else bst) best
  (row, newBest)

/-- difflib SequenceMatcher.find_longest_match on the ranges
a[alo:ahi], b[blo:bhi] with no junk: returns (i, j, size) of the longest
matching block, ties resolved exactly as the dynamic program does (scanning
i then j ascending with a strict improvement test). -/
def findLongestMatch (a b : List Char) (alo ahi blo bhi : Nat) : Nat × Nat × Nat :=
  let init : List Nat := List.replicate b.length 0
  let r := (List.range' alo (ahi - alo)).foldl
    (fun (st : List Nat × (Nat × Nat × Nat)) i => flmRowBest a b blo bhi i st.1 st.2)
    (init, (alo, blo, 0))
  r.2

/-- Total size of the matching blocks of SequenceMatcher
(get_matching_blocks): recursively take the longest match and recurse on
both sides; empty or unmatched ranges contribute nothing.  Fuel bounds the
recursion depth; every recursive call strictly shrinks the a-range, so fuel
`a.length + 1` suffices and the zero-fuel branch is unreachable from
`ratioL`. -/
def matchedSizeF : Nat → List Char → List Char → Nat → Nat → Nat → Nat → Nat
  | 0, _, _, _, _, _, _ => 0
  | fuel + 1, a, b, alo, ahi, blo, bhi =>
    let m := findLongestMatch a b alo ahi blo bhi
    if m.2.2 = 0 then 0
    else matchedSizeF fuel a b alo m.1 blo m.2.1
         + m.2.2
         + matchedSizeF fuel a b (m.1 + m.2.2) ahi (m.2.1 + m.2.2) bhi

/-- difflib SequenceMatcher(None, a, b).ratio():
2*M / (len(a)+len(b)), and 1.0 when both strings are empty. -/
def ratioL (a b : List Char) : ℚ :=
  let total := a.length + b.length
  if total = 0 then 1
  else 2 * (matchedSizeF (a.length + 1) a b 0 a.length 0 b.length : ℚ) / (total : ℚ)

/-- A product registry entry (product_registry.json descriptor), with the
fields the matcher consults.  Identifiers are (id_type, id_value) pairs. -/
structure Product where
  canonical_name : String
  brand : String
  category : String
  ptype : String
  aliases : List String
  identifiers : List (String × String)
  deriving DecidableEq

/-- The product registry: an insertion-ordered mapping from product id to
descriptor (Python dicts preserve insertion order, and the matcher iterates
in that order). -/
abbrev Registry := List (String × Product)

/-- Python truthiness of an optional string (None and "" are falsy). -/
def truthyS (o : Option String) : Bool :=
  match o with
  | none => false
  | some s => s ≠ ""

/-- ProductMatcher.exact_alias_match: scan the registry in order; for each
product first test the nonempty lowered canonical name for containment in
the lowered text (score 0.95), then each alias lowered, with no emptiness
guard (score 0.9); first hit wins. -/
def exactAliasGo : List (String × Product) → List Char → Option String × ℚ
  | [], _ => (none, 0)
  | (pid, p) :: rest, tl =>
    let cn := pyLowerL p.canonical_name.data
    if cn ≠ [] ∧ substrL cn tl then (some pid, 95/100)
    else if p.aliases.any (fun a => substrL (pyLowerL a.data) tl) then (some pid, 9/10)
    else exactAliasGo rest tl

/-- ProductMatcher.exact_alias_match. -/
def exactAliasMatch (reg : Registry) (text : String) : Option String × ℚ :=
  exactAliasGo reg (pyLowerL text.data)

/-- Fold of the strict best-candidate update `if score > best_score` with
initial best (None, 0), in registry order. -/
def bestFold (items : List (String × ℚ)) : Option String × ℚ :=
  items.foldl (fun best pr => if pr.2 > best.2 then (some pr.1, pr.2) else best) (none, 0)

/-- ProductMatcher.fuzzy_brand_product_match: collect lowered brands
mentioned in the text; if any, score only products of those brands with a
1.2 multiplier, else score all products; clamp the best score to 1. -/
def fuzzyBrandProductMatch (reg : Registry) (text : String) : Option String × ℚ :=
  let tl := pyLowerL text.data
  let mentionedBrands := reg.filterMap (fun pr =>
    let b := pyLowerL pr.2.brand.data
    if b ≠ [] ∧ substrL b tl then some b else none)
  let best :=
    if mentionedBrands ≠ [] then
      bestFold ((reg.filter (fun pr => mentionedBrands.contains (pyLowerL pr.2.brand.data))).map
        (fun pr => (pr.1, ratioL (pyLowerL pr.2.canonical_name.data) tl * (6/5))))
    else
      bestFold (reg.map (fun pr => (pr.1, ratioL (pyLowerL pr.2.canonical_name.data) tl)))
  (best.1, pyMin best.2 1)

/-- ProductMatcher.semantic_similarity_match: a placeholder in the source
that always falls through to the other methods. -/
def semanticSimilarityMatch (_reg : Registry) (_text : String) : Option String × ℚ :=
  (none, 0)

/-- The context_factors block of a match info. -/
structure ContextFactors where
  brand_mentioned : Bool
  product_type_mentioned : Bool
  identifier_mentioned : Bool
  deriving DecidableEq

/-- One alternative match candidate. -/
structure AltMatch where
  product_id : String
  score : ℚ
  deriving DecidableEq

/-- The match_info dict produced by the matcher. -/
structure MatchInfo where
  match_method : String
  match_score : ℚ
  alternative_matches : List AltMatch
  context_factors : ContextFactors
  deriving DecidableEq

/-- The context factors computed inside _create_match_info: whether any
product's nonempty lowered brand or type occurs in the lowered text, and
whether any nonempty identifier value occurs in the raw (not lowered)
text. -/
def contextFactorsOf (reg : Registry) (text : String) : ContextFactors :=
  let tl := pyLowerL text.data
  { brand_mentioned := reg.any (fun pr =>
      let b := pyLowerL pr.2.brand.data
      b ≠ [] ∧ substrL b tl)
    product_type_mentioned := reg.any (fun pr =>
      let t := pyLowerL pr.2.ptype.data
      t ≠ [] ∧ substrL t tl)
    identifier_mentioned := reg.any (fun pr =>
      pr.2.identifiers.any (fun idv => idv.2 ≠ "" ∧ substrL idv.2.data text.data)) }

/-- Stable insertion step for a descending sort by score: an element moves
left past exactly the elements with strictly smaller score, which reproduces
Python's stable `list.sort(key=score, reverse=True)`. -/
def insDesc (x : String × ℚ) : List (String × ℚ) → List (String × ℚ)
  | [] => [x]
  | y :: ys => if y.2 < x.2 then x :: y :: ys else y :: insDesc x ys

/-- Stable descending sort by score. -/
def stableSortDesc : List (String × ℚ) → List (String × ℚ)
  | [] => []
  | x :: xs => insDesc x (stableSortDesc xs)

/-- ProductMatcher._get_alternative_matches: fuzzy-score every product's
canonical name against the lowered text, sort descending, and take entries
1 through limit (excluding the best). -/
def getAlternativeMatches (reg : Registry) (text : String) (limit : Nat) : List AltMatch :=
  let tl := pyLowerL text.data
  let allMatches := reg.map (fun pr => (pr.1, ratioL (pyLowerL pr.2.canonical_name.data) tl))
  (((stableSortDesc allMatches).drop 1).take limit).map (fun pr => ⟨pr.1, pr.2⟩)

/-- ProductMatcher._create_match_info (the unused context argument of the
source is omitted). -/
def createMatchInfo (reg : Registry) (method : String) (score : ℚ) (text : String) : MatchInfo :=
  { match_method := method
    match_score := score
    alternative_matches := getAlternativeMatches reg text 3
    context_factors := contextFactorsOf reg text }

/-- The constant fallback match info returned by match_product when no stage
accepts. -/
def fallbackMatchInfo : MatchInfo :=
  { match_method := "fallback"
    match_score := 1/10
    alternative_matches := []
    context_factors := ⟨false, false, false⟩ }

/-- An entry of the unresolved-mention log (registry_suggestions.json). -/
structure UnresolvedEntry where
  mention_text : String
  timestamp : String
  status : String
  deriving DecidableEq

/-- ProductMatcher.match_product.  `hasEmbeddings` models the truthiness of
self.embeddings, `now` the datetime.now().isoformat() timestamp of
log_unmatched, and the unresolved-mention log file is threaded as explicit
state (last component).  Stage guards use Python truthiness of the returned
product id. -/
def matchProduct (reg : Registry) (hasEmbeddings : Bool) (text : String)
    (now : String) (log : List UnresolvedEntry) :
    (Option String × MatchInfo) × List UnresolvedEntry :=
  let s1 := exactAliasMatch reg text
  if truthyS s1.1 ∧ s1.2 > 8/10 then
    ((s1.1, createMatchInfo reg "exact_alias" s1.2 text), log)
  else
    let s2 := fuzzyBrandProductMatch reg text
    if truthyS s2.1 ∧ s2.2 > 6/10 then
      ((s2.1, createMatchInfo reg "fuzzy_brand_product" s2.2 text), log)
    else
      let s3 := if hasEmbeddings then semanticSimilarityMatch reg text else (none, 0)
      if hasEmbeddings ∧ truthyS s3.1 ∧ s3.2 > 1/2 then
        ((s3.1, createMatchInfo reg "semantic_similarity" s3.2 text), log)
      else
        ((none, fallbackMatchInfo), log ++ [⟨text, now, "unprocessed"⟩])

/-! ## TrustAtomCreator (trust_atom_creator.py) -/

/-- The match_info dict as consumed by create_trust_atom: the match_score
key may be absent (read via `.get("match_score", 0.1)`); the remaining
fields are passed through into the atom unread. -/
structure CMatchInfo where
  match_score : Option ℚ
  match_method : String
  alternative_matches : List AltMatch
  context_factors : ContextFactors
  deriving DecidableEq

/-- The metadata block of a Trust Atom. -/
structure AtomMetadata where
  username_hash : String
  upvotes : Int
  permalink : String
  deriving DecidableEq

/-- The source_specific_data block: at most one sub-key, named for the
source, with only that source's fields. -/
inductive SourceData where
  | empty : SourceData
  | reddit (subreddit post_title : String) (post_score : Int) : SourceData
  | youtube (video_title channel_name : String) (video_views : Int)
      (timestamp_in_video : String) : SourceData
  | amazon (product_title : String) (star_rating : Int) (review_title : String) : SourceData
  deriving DecidableEq

/-- A Trust Atom as built by create_trust_atom. -/
structure TrustAtom where
  atom_id : String
  product_id : String
  source : String
  timestamp : String
  feedback_text : String
  summary_text : String
  sentiment_label : String
  authenticity_score : ℚ
  confidence_score : ℚ
  tags : List String
  metadata : AtomMetadata
  product_match_info : CMatchInfo
  source_specific_data : SourceData
  deriving DecidableEq

/-- TrustAtomCreator._anonymize_username.  The sha256 hex digest is an
external primitive passed in as `hashFn`; absent or empty usernames map to
the fixed sentinel, otherwise the digest is truncated to 16 characters. -/
def anonymizeUsername (hashFn : String → String) (username : Option String) : String :=
  match username with
  | none => "sha256:anonymous"
  | some u => if u = "" then "sha256:anonymous"
              else "sha256:" ++ ⟨(hashFn u).data.take 16⟩

/-- TrustAtomCreator.create_trust_atom.  `hashFn` models hashlib.sha256
hexdigest, `uuid8` the fresh uuid4().hex[:8] suffix and `nowIso` the
datetime.now().isoformat() default timestamp.  Schema validation (which
logs and never raises) does not affect the returned atom and is omitted. -/
def createTrustAtom (hashFn : String → String) (fb : Feedback)
    (productMatchResult : Option String × CMatchInfo) (sentimentResult : String × ℚ)
    (tags : List String) (summary : Option String) (uuid8 nowIso : String) : TrustAtom :=
  let pid0 := productMatchResult.1
  let matchInfo := productMatchResult.2
  let product_id := if truthyS pid0 then pid0.getD "" else "unknown_product"
  let atom_id := fb.source.getD "unknown" ++ "_" ++ product_id ++ "_" ++ uuid8
  let summary_text := summary.getD (fb.text.getD "")
  let match_score := matchInfo.match_score.getD (1/10)
  let overall_confidence := 7/10 * match_score + 3/10 * sentimentResult.2
  let authenticity_score := fb.authenticity_score.getD (1/2)
  let source := pyLowerS (fb.source.getD "")
  let ssd :=
    if source = "reddit" then
      SourceData.reddit (fb.subreddit.getD "") (fb.post_title.getD "") (fb.post_score.getD 0)
    else if source = "youtube" then
      SourceData.youtube (fb.video_title.getD "") (fb.channel_name.getD "")
        (fb.video_views.getD 0) (fb.timestamp_in_video.getD "")
    else if source = "amazon" then
      SourceData.amazon (fb.product_title.getD "") (fb.star_rating.getD 0)
        (fb.review_title.getD "")
    else SourceData.empty
  { atom_id := atom_id
    product_id := product_id
    source := fb.source.getD "unknown"
    timestamp := fb.timestamp.getD nowIso
    feedback_text := fb.text.getD ""
    summary_text := summary_text
    sentiment_label := sentimentResult.1
    authenticity_score := authenticity_score
    confidence_score := overall_confidence
    tags := tags
    metadata := { username_hash := anonymizeUsername hashFn fb.username
                  upvotes := fb.score.getD 0
                  permalink := fb.permalink.getD "" }
    product_match_info := matchInfo
    source_specific_data := ssd }

/-! ## TrustAtomStorage (storage.py)

The three storage directories are modelled as association lists from file
key to the JSON array stored in that file, in creation order (the order
os.listdir is modelled to report).  Reads never fail in the model. -/

/-- A storage directory: file key to stored atoms. -/
abbrev StorageDir := List (String × List TrustAtom)

/-- The whole storage state: categories/, sources/, trust_atoms/. -/
structure StorageState where
  categories : StorageDir
  sources : StorageDir
  products : StorageDir
  deriving DecidableEq

/-- Reading a file if it exists. -/
def lookupFile : StorageDir → String → Option (List TrustAtom)
  | [], _ => none
  | kv :: rest, key => if kv.1 = key then some kv.2 else lookupFile rest key

/-- TrustAtomStorage._store_in_file: load the existing array (empty when the
file is absent), append the atom, write back. -/
def storeInFile : StorageDir → String → TrustAtom → StorageDir
  | [], key, a => [(key, [a])]
  | kv :: rest, key, a =>
    if kv.1 = key then (kv.1, kv.2 ++ [a]) :: rest
    else kv :: storeInFile rest key a

/-- TrustAtomStorage._get_category: category inferred from substrings of
the product id. -/
def getCategory (pid : String) : String :=
  if substrL "cleanser".data pid.data || substrL "moisturizer".data pid.data
     || substrL "serum".data pid.data then "skincare"
  else if substrL "food".data pid.data || substrL "snack".data pid.data
     || substrL "drink".data pid.data then "food"
  else if substrL "detergent".data pid.data || substrL "cleaner".data pid.data then "household"
  else "unknown"

/-- TrustAtomStorage.store_by_category. -/
def storeByCategory (s : StorageState) (a : TrustAtom) : StorageState :=
  { s with categories := storeInFile s.categories (getCategory a.product_id) a }

/-- TrustAtomStorage.store_by_source. -/
def storeBySource (s : StorageState) (a : TrustAtom) : StorageState :=
  { s with sources := storeInFile s.sources a.source a }

/-- TrustAtomStorage.store_as_trust_atom. -/
def storeAsTrustAtom (s : StorageState) (a : TrustAtom) : StorageState :=
  { s with products := storeInFile s.products a.product_id a }

/-- TrustAtomStorage.store_all: fan out one atom to all three directories
(in the model writes always succeed, so the result flags are omitted). -/
def storeAll (s : StorageState) (a : TrustAtom) : StorageState :=
  storeAsTrustAtom (storeBySource (storeByCategory s a) a) a

/-- store_all over a batch of atoms in arrival order. -/
def storeAllList (s : StorageState) (atoms : List TrustAtom) : StorageState :=
  atoms.foldl storeAll s

/-- TrustAtomStorage.get_trust_atoms_by_product: return the
product-specific file if it exists, else scan every category file and
filter by product id, concatenating in directory order. -/
def getTrustAtomsByProduct (s : StorageState) (pid : String) : List TrustAtom :=
  match lookupFile s.products pid with
  | some atoms => atoms
  | none =>
    s.categories.foldl (fun acc kv => acc ++ kv.2.filter (fun a => a.product_id = pid)) []

/-! ## Concrete instances used by witnesses and counterexamples -/

/-- Reddit feedback with 100 upvotes and a five-word text: only the upvote
branch of calculate_authenticity fires. -/
def authBugFeedback : Feedback :=
  { emptyFeedback with source := some "reddit", score := some 100, text := some "a b c d e" }

/-- Product named alpha, no brand, no aliases. -/
def alphaProduct : Product := ⟨"alpha", "", "", "", [], []⟩

/-- Product named beta, no brand, no aliases. -/
def betaProduct : Product := ⟨"beta", "", "", "", [], []⟩

/-- Registry with two products whose canonical names are alpha and beta. -/
def c2Registry : Registry := [("a_prod", alphaProduct), ("b_prod", betaProduct)]

/-- Product named beta carrying the empty string among its aliases. -/
def betaEmptyAliasProduct : Product := ⟨"beta", "", "", "", [""], []⟩

/-- Registry whose second product has an empty alias. -/
def c10Registry : Registry := [("a_prod", alphaProduct), ("b_prod", betaEmptyAliasProduct)]

/-- Product whose brand zebra appears in text but whose canonical name
shares no character with it, so every stage of matching fails. -/
def zebraProduct : Product := ⟨"qqqqq", "zebra", "", "", [], []⟩

/-- One-product registry for the fallback counterexample. -/
def zebraRegistry : Registry := [("z_prod", zebraProduct)]

/-- The CeraVe registry entry from the specification scenario. -/
def ceraveProduct : Product :=
  ⟨"CeraVe Foaming Facial Cleanser", "CeraVe", "skincare", "cleanser",
   ["cerave foaming cleanser", "cerave face wash", "cerave foaming cleanser 12oz",
    "cerave cleanser"],
   [("asin", "B01N1LL62W"), ("upc", "301871239012")]⟩

/-- One-product registry for the specification scenario. -/
def ceraveRegistry : Registry := [("cerave_foaming_cleanser_12oz", ceraveProduct)]

/-- The specification scenario text containing the canonical name verbatim. -/
def ceraveText : String := "I love the CeraVe Foaming Facial Cleanser for my oily skin"

/-- Thirty-one one-letter words with no sentence punctuation. -/
def longUnpunctuated : String :=
  "a a a a a a a a a a a a a a a a a a a a a a a a a a a a a a a"

/-- Ten words in three sentences, the third too short to be retained. -/
def threeSentences : String :=
  "one two three four. five six seven eight. nine ten"

/-- A minimal concrete Trust Atom for product prod_x. -/
def rtAtom1 : TrustAtom :=
  { atom_id := "a1", product_id := "prod_x", source := "reddit", timestamp := "t",
    feedback_text := "", summary_text := "", sentiment_label := "neutral",
    authenticity_score := 1/2, confidence_score := 1/2, tags := [],
    metadata := ⟨"h", 0, ""⟩,
    product_match_info := ⟨none, "fallback", [], ⟨false, false, false⟩⟩,
    source_specific_data := SourceData.empty }

/-- A second concrete Trust Atom for the same product. -/
def rtAtom2 : TrustAtom :=
  { rtAtom1 with atom_id := "a2", source := "youtube" }

/-- The empty storage state. -/
def emptyStorage : StorageState := ⟨[], [], []⟩

/-! ## Theorems -/

/-- The empty needle is a substring of every haystack (Python semantics of
`x in y` for empty x). -/
theorem substrL_nil_left (l : List Char) : substrL [] l = true := by
  cases l <;> simp [substrL, startsWithL, List.isEmpty]

/-- If some product of the registry has its nonempty lowered canonical name
contained in the lowered text, or some alias contained, then the
exact-alias scan returns some product id of the registry with score 0.95
or 0.9. -/
theorem exactAliasGo_hit (reg : List (String × Product)) (tl : List Char)
    (h : ∃ pr ∈ reg,
      (pyLowerL pr.2.canonical_name.data ≠ []
        ∧ substrL (pyLowerL pr.2.canonical_name.data) tl = true)
      ∨ pr.2.aliases.any (fun a => substrL (pyLowerL a.data) tl) = true) :
    ∃ pid c, exactAliasGo reg tl = (some pid, c)
      ∧ (c = 95/100 ∨ c = 9/10) ∧ ∃ p, (pid, p) ∈ reg := by
  induction reg with
  | nil => simp at h
  | cons hd rest ih =>
    obtain ⟨pid, p⟩ := hd
    by_cases h1 : pyLowerL p.canonical_name.data ≠ []
        ∧ substrL (pyLowerL p.canonical_name.data) tl = true
    · exact ⟨pid, 95/100, by simp [exactAliasGo, h1], Or.inl rfl, p, by simp⟩
    · by_cases h2 : p.aliases.any (fun a => substrL (pyLowerL a.data) tl) = true
      · exact ⟨pid, 9/10, by simp [exactAliasGo, h1, h2], Or.inr rfl, p, by simp⟩
      · have hrest : ∃ pr ∈ rest,
            (pyLowerL pr.2.canonical_name.data ≠ []
              ∧ substrL (pyLowerL pr.2.canonical_name.data) tl = true)
            ∨ pr.2.aliases.any (fun a => substrL (pyLowerL a.data) tl) = true := by
          rcases h with ⟨pr, hmem, hc⟩
          rcases List.mem_cons.mp hmem with heq | hmem2
          · subst heq
            rcases hc with hca | hcb
            · exact absurd hca h1
            · exact absurd hcb h2
          · exact ⟨pr, hmem2, hc⟩
        obtain ⟨pid2, c, heq, hcv, p2, hmem⟩ := ih hrest
        exact ⟨pid2, c, by simp [exactAliasGo, h1, h2, heq], hcv, p2,
          List.mem_cons_of_mem _ hmem⟩

/-- When the exact-alias stage returns a truthy product id with score above
0.8, match_product returns it with the computed exact_alias match info and
leaves the unresolved log unchanged. -/
theorem matchProduct_stage1_eq (reg : Registry) (hasEmbeddings : Bool)
    (text now : String) (log : List UnresolvedEntry) (pid : String) (c : ℚ)
    (heq : exactAliasMatch reg text = (some pid, c)) (hpid : pid ≠ "")
    (hgt : c > 8/10) :
    matchProduct reg hasEmbeddings text now log
      = ((some pid, createMatchInfo reg "exact_alias" c text), log) := by
  have hcond : truthyS (some pid, c).1 = true ∧ (some pid, c).2 > 8/10 :=
    ⟨by simp [truthyS, hpid], hgt⟩
  simp only [matchProduct, heq]
  rw [if_pos hcond]

/-- Combination: a canonical-name or alias hit in a registry with nonempty
ids makes match_product return the first hit via exact_alias with score at
least 0.9, without logging. -/
theorem matchProduct_stage1 (reg : Registry) (hasEmbeddings : Bool)
    (text now : String) (log : List UnresolvedEntry)
    (hids : ∀ pr ∈ reg, pr.1 ≠ "")
    (hhit : ∃ pr ∈ reg,
      (pyLowerL pr.2.canonical_name.data ≠ []
        ∧ substrL (pyLowerL pr.2.canonical_name.data) (pyLowerL text.data) = true)
      ∨ pr.2.aliases.any (fun a => substrL (pyLowerL a.data) (pyLowerL text.data)) = true) :
    ∃ pid c, exactAliasMatch reg text = (some pid, c) ∧ 9/10 ≤ c ∧
      matchProduct reg hasEmbeddings text now log
        = ((some pid, createMatchInfo reg "exact_alias" c text), log) := by
  obtain ⟨pid, c, heq, hcv, p, hmem⟩ := exactAliasGo_hit reg (pyLowerL text.data) hhit
  have heam : exactAliasMatch reg text = (some pid, c) := heq
  have hge : (9/10 : ℚ) ≤ c := by
    rcases hcv with h | h
    · rw [h]; norm_num
    · rw [h]
  have hgt : c > 8/10 := by
    rcases hcv with h | h
    · rw [h]; norm_num
    · rw [h]; norm_num
  exact ⟨pid, c, heam, hge,
    matchProduct_stage1_eq reg hasEmbeddings text now log pid c heam
      (hids (pid, p) hmem) hgt⟩

/-- When neither the exact-alias guard nor the fuzzy guard holds (and the
semantic placeholder never holds), match_product produces the fallback
result and appends one log entry. -/
theorem matchProduct_no_accept (reg : Registry) (hasEmbeddings : Bool)
    (text now : String) (log : List UnresolvedEntry)
    (h1 : ¬ (truthyS (exactAliasMatch reg text).1 = true
           ∧ (exactAliasMatch reg text).2 > 8/10))
    (h2 : ¬ (truthyS (fuzzyBrandProductMatch reg text).1 = true
           ∧ (fuzzyBrandProductMatch reg text).2 > 6/10)) :
    matchProduct reg hasEmbeddings text now log
      = ((none, fallbackMatchInfo), log ++ [⟨text, now, "unprocessed"⟩]) := by
  simp only [matchProduct]
  rw [if_neg h1, if_neg h2]
  cases hasEmbeddings
  all_goals simp [semanticSimilarityMatch, truthyS]


/-- Claim C1: for every feedback envelope, match result and sentiment
result, create_trust_atom returns an atom whose confidence_score equals
0.7 times the match result's match_score (defaulting to 0.1 when the
match_score key is absent) plus 0.3 times the sentiment confidence. -/
theorem createTrustAtom_confidence_weighting (hashFn : String → String) (fb : Feedback)
    (pm : Option String × CMatchInfo) (sr : String × ℚ) (tags : List String)
    (summary : Option String) (uuid8 nowIso : String) :
    (createTrustAtom hashFn fb pm sr tags summary uuid8 nowIso).confidence_score
      = 7/10 * pm.2.match_score.getD (1/10) + 3/10 * sr.2 := rfl

/-- Claim C5 (code bug evidence): for Reddit feedback with 100 upvotes the
authenticity score is 0.6, i.e. only the low-threshold bonus of 0.1 is
applied; the `elif upvotes > 50` branch adding 0.2 is unreachable because
`upvotes > 10` is tested first. -/
theorem calculateAuthenticity_high_upvotes_bug :
    calculateAuthenticity authBugFeedback = 3/5 := by with_unfolding_all decide

/-- Claim C6 counterexample: on the text love love love (three occurrences
of one positive keyword) the code returns confidence 0.6, not the
min(0.5 + 0.1 times the occurrence count, 0.9) = 0.8 the claim states. -/
theorem analyzeSentiment_occurrences_counterexample :
    analyzeSentiment "love love love"
      ≠ ("positive",
         pyMin (1/2 + (specOccTotal positiveKeywords (pyLowerL "love love love".data) : ℚ) * (1/10))
             (9/10)) := by with_unfolding_all decide

/-- Claim C6 (amended): when at least one positive keyword and no negative
keyword occurs in the lowered text, analyze_sentiment returns positive with
confidence min(0.5 + 0.1 times the number of DISTINCT positive keywords
present, 0.9) — each keyword counts once however often it is repeated — and
symmetrically for negative. -/
theorem analyzeSentiment_distinct_keyword_confidence (text : String) :
    (0 < kwCount positiveKeywords (pyLowerL text.data) →
     kwCount negativeKeywords (pyLowerL text.data) = 0 →
     analyzeSentiment text
       = ("positive",
          pyMin (1/2 + (kwCount positiveKeywords (pyLowerL text.data) : ℚ) * (1/10)) (9/10))) ∧
    (0 < kwCount negativeKeywords (pyLowerL text.data) →
     kwCount positiveKeywords (pyLowerL text.data) = 0 →
     analyzeSentiment text
       = ("negative",
          pyMin (1/2 + (kwCount negativeKeywords (pyLowerL text.data) : ℚ) * (1/10)) (9/10))) := by
  constructor
  · intro h1 h2
    simp [analyzeSentiment, h1, h2]
  · intro h1 h2
    simp [analyzeSentiment, h1, h2, Nat.pos_iff_ne_zero]

/-- Claim C6 witness: the amended theorem applied to the text love. -/
theorem analyzeSentiment_distinct_keyword_confidence_witness :
    analyzeSentiment "love"
      = ("positive",
         pyMin (1/2 + (kwCount positiveKeywords (pyLowerL "love".data) : ℚ) * (1/10)) (9/10)) :=
  (analyzeSentiment_distinct_keyword_confidence "love").1 (by decide) (by decide)

/-- Claim C3: when neither the exact-alias stage nor the fuzzy stage
accepts (and the semantic placeholder never accepts), match_product returns
no product id with the constant fallback info (method fallback, score 0.1,
empty alternatives, all-false context factors) and appends exactly one
unprocessed entry for the mention text to the unresolved log. -/
theorem matchProduct_fallback_logs_once (reg : Registry) (hasEmbeddings : Bool)
    (text now : String) (log : List UnresolvedEntry)
    (h1 : ¬ (truthyS (exactAliasMatch reg text).1 ∧ (exactAliasMatch reg text).2 > 8/10))
    (h2 : ¬ (truthyS (fuzzyBrandProductMatch reg text).1
             ∧ (fuzzyBrandProductMatch reg text).2 > 6/10)) :
    matchProduct reg hasEmbeddings text now log
      = ((none, fallbackMatchInfo), log ++ [⟨text, now, "unprocessed"⟩]) :=
  matchProduct_no_accept reg hasEmbeddings text now log h1 h2

/-- Claim C3 witness: the empty registry matches nothing, so the fallback
result and a single log entry are produced. -/
theorem matchProduct_fallback_logs_once_witness :
    matchProduct [] false "hello" "ts" []
      = ((none, fallbackMatchInfo), [⟨"hello", "ts", "unprocessed"⟩]) :=
  matchProduct_fallback_logs_once [] false "hello" "ts" []
    (by with_unfolding_all decide) (by with_unfolding_all decide)

/-- Claim C2 counterexample: the text alpha beta contains the canonical
name beta of product b_prod verbatim, yet match_product returns a_prod (the
first product in registry order whose canonical name occurs), not
b_prod. -/
theorem matchProduct_exact_alias_counterexample :
    substrL (pyLowerL "beta".data) (pyLowerL "alpha beta".data) = true ∧
    ("b_prod", betaProduct) ∈ c2Registry ∧
    (matchProduct c2Registry false "alpha beta" "ts" []).1.1 ≠ some "b_prod" := by
  with_unfolding_all decide

/-- Claim C2 (amended): for a registry with nonempty product ids, whenever
some product's nonempty canonical name occurs verbatim (case-insensitively)
in the text, match_product accepts at the exact-alias stage: it returns the
id of the first product in registry order whose canonical name or alias
occurs, with score at least 0.9 (0.95 canonical, 0.9 alias), method
exact_alias, and no unresolved-log entry. -/
theorem matchProduct_canonical_gives_exact_alias (reg : Registry) (hasEmbeddings : Bool)
    (text now : String) (log : List UnresolvedEntry)
    (hids : ∀ pr ∈ reg, pr.1 ≠ "")
    (hcanon : ∃ pr ∈ reg,
      pyLowerL pr.2.canonical_name.data ≠ []
        ∧ substrL (pyLowerL pr.2.canonical_name.data) (pyLowerL text.data) = true) :
    ∃ pid c, exactAliasMatch reg text = (some pid, c) ∧ 9/10 ≤ c ∧
      matchProduct reg hasEmbeddings text now log
        = ((some pid, createMatchInfo reg "exact_alias" c text), log) := by
  refine matchProduct_stage1 reg hasEmbeddings text now log hids ?_
  rcases hcanon with ⟨pr, hmem, hc⟩
  exact ⟨pr, hmem, Or.inl hc⟩

/-- Claim C2 witness: the specification scenario text against the CeraVe
registry matches via exact_alias with score at least 0.9. -/
theorem matchProduct_canonical_gives_exact_alias_witness :
    ∃ pid c, exactAliasMatch ceraveRegistry ceraveText = (some pid, c) ∧ 9/10 ≤ c ∧
      matchProduct ceraveRegistry false ceraveText "ts" []
        = ((some pid, createMatchInfo ceraveRegistry "exact_alias" c ceraveText), []) :=
  matchProduct_canonical_gives_exact_alias ceraveRegistry false ceraveText "ts" []
    (by with_unfolding_all decide) (by with_unfolding_all decide)

set_option maxRecDepth 100000 in
/-- Claim C4 counterexample: on a fallback result the context factors are
the fixed all-false constants even though the computed context factors
would record the mentioned brand zebra. -/
theorem matchProduct_fallback_constants_counterexample :
    (matchProduct zebraRegistry false "zebra" "ts" []).1.2.context_factors
      ≠ contextFactorsOf zebraRegistry "zebra" := by
  with_unfolding_all decide

/-- Claim C4 (amended): the match info is computed by _create_match_info
(alternatives and context factors derived from the registry and text) only
when a stage accepts; when no stage accepts, the fallback result carries
the fixed constants: empty alternatives and all-false context factors. -/
theorem matchProduct_info_computed_or_constant (reg : Registry) (hasEmbeddings : Bool)
    (text now : String) (log : List UnresolvedEntry) :
    (truthyS (exactAliasMatch reg text).1 = true ∧ (exactAliasMatch reg text).2 > 8/10 →
      matchProduct reg hasEmbeddings text now log
        = (((exactAliasMatch reg text).1,
            createMatchInfo reg "exact_alias" (exactAliasMatch reg text).2 text), log)) ∧
    (¬ (truthyS (exactAliasMatch reg text).1 = true ∧ (exactAliasMatch reg text).2 > 8/10) →
     truthyS (fuzzyBrandProductMatch reg text).1 = true
       ∧ (fuzzyBrandProductMatch reg text).2 > 6/10 →
      matchProduct reg hasEmbeddings text now log
        = (((fuzzyBrandProductMatch reg text).1,
            createMatchInfo reg "fuzzy_brand_product" (fuzzyBrandProductMatch reg text).2 text),
           log)) ∧
    (¬ (truthyS (exactAliasMatch reg text).1 = true ∧ (exactAliasMatch reg text).2 > 8/10) →
     ¬ (truthyS (fuzzyBrandProductMatch reg text).1 = true
          ∧ (fuzzyBrandProductMatch reg text).2 > 6/10) →
      (matchProduct reg hasEmbeddings text now log).1.2 = fallbackMatchInfo) := by
  refine ⟨?_, ?_, ?_⟩
  · intro hg
    simp only [matchProduct]
    rw [if_pos hg]
  · intro hn hg
    simp only [matchProduct]
    rw [if_neg hn, if_pos hg]
  · intro hn1 hn2
    rw [matchProduct_no_accept reg hasEmbeddings text now log hn1 hn2]

/-- Claim C4 witness: on an accepted exact-alias match the info is the
computed one. -/
theorem matchProduct_info_computed_or_constant_witness :
    matchProduct c2Registry false "alpha" "ts" []
      = (((exactAliasMatch c2Registry "alpha").1,
          createMatchInfo c2Registry "exact_alias" (exactAliasMatch c2Registry "alpha").2
            "alpha"), []) :=
  (matchProduct_info_computed_or_constant c2Registry false "alpha" "ts" []).1
    (by with_unfolding_all decide)

/-- Claim C10 counterexample: with a product carrying an empty alias in the
registry, exact_alias_match on the text alpha returns score 0.95 (a
canonical-name hit of an earlier product), not 0.9 as the claim states for
every text. -/
theorem exactAliasMatch_empty_alias_counterexample :
    ("b_prod", betaEmptyAliasProduct) ∈ c10Registry ∧
    "" ∈ betaEmptyAliasProduct.aliases ∧
    exactAliasMatch c10Registry "alpha" = (some "a_prod", 95/100) := by
  with_unfolding_all decide

/-- Claim C10 (amended): if some product of a registry with nonempty ids
has the empty string among its aliases, then for every text (the empty
text included) exact_alias_match returns a product id with score at least
0.9 (0.9 from an alias hit, 0.95 when an earlier canonical name occurs), so
match_product accepts at the exact-alias stage, never reaches the fallback
branch and never logs an unresolved mention; canonical names are guarded
against being empty but aliases are not. -/
theorem matchProduct_empty_alias_never_fallback (reg : Registry) (hasEmbeddings : Bool)
    (text now : String) (log : List UnresolvedEntry)
    (hids : ∀ pr ∈ reg, pr.1 ≠ "")
    (hempty : ∃ pr ∈ reg, "" ∈ pr.2.aliases) :
    ∃ pid c, exactAliasMatch reg text = (some pid, c) ∧ 9/10 ≤ c ∧
      matchProduct reg hasEmbeddings text now log
        = ((some pid, createMatchInfo reg "exact_alias" c text), log) := by
  refine matchProduct_stage1 reg hasEmbeddings text now log hids ?_
  rcases hempty with ⟨pr, hmem, ha⟩
  refine ⟨pr, hmem, Or.inr ?_⟩
  refine List.any_eq_true.mpr ⟨"", ha, ?_⟩
  exact substrL_nil_left (pyLowerL text.data)

/-- Claim C10 witness: the empty-alias registry matches the unrelated text
zzz via exact_alias without logging. -/
theorem matchProduct_empty_alias_never_fallback_witness :
    ∃ pid c, exactAliasMatch c10Registry "zzz" = (some pid, c) ∧ 9/10 ≤ c ∧
      matchProduct c10Registry false "zzz" "ts" []
        = ((some pid, createMatchInfo c10Registry "exact_alias" c "zzz"), []) :=
  matchProduct_empty_alias_never_fallback c10Registry false "zzz" "ts" []
    (by with_unfolding_all decide) (by with_unfolding_all decide)

/-- Appending via _store_in_file makes the stored file hold the previous
content (empty when absent) followed by the new atom. -/
theorem lookupFile_storeInFile (d : StorageDir) (key : String) (a : TrustAtom) :
    lookupFile (storeInFile d key a) key = some ((lookupFile d key).getD [] ++ [a]) := by
  induction d with
  | nil => simp [storeInFile, lookupFile]
  | cons kv rest ih =>
    by_cases h : kv.1 = key
    · simp [storeInFile, lookupFile, h]
    · simp [storeInFile, lookupFile, h, ih]

/-- store_all touches the product directory exactly through _store_in_file
under the atom's product id. -/
theorem storeAll_products (s : StorageState) (a : TrustAtom) :
    (storeAll s a).products = storeInFile s.products a.product_id a := rfl

/-- Storing a batch of atoms of one product appends them, in order, to that
product's collection. -/
theorem storeAllList_products (atoms : List TrustAtom) (s : StorageState)
    (pid : String) (l : List TrustAtom)
    (hpid : ∀ x ∈ atoms, x.product_id = pid)
    (hs : lookupFile s.products pid = some l) :
    lookupFile (storeAllList s atoms).products pid = some (l ++ atoms) := by
  induction atoms generalizing s l with
  | nil => simpa [storeAllList] using hs
  | cons a rest ih =>
    have hpa : a.product_id = pid := hpid a (by simp)
    have h1 : lookupFile (storeAll s a).products pid = some (l ++ [a]) := by
      rw [storeAll_products, hpa, lookupFile_storeInFile, hs]
      simp
    have h2 := ih (storeAll s a) (l ++ [a]) (fun x hx => hpid x (by simp [hx])) h1
    simpa [storeAllList, List.append_assoc] using h2

/-- A category scan for a product id that appears in no category file
returns the accumulator unchanged. -/
theorem catScan_nil (cats : StorageDir) (pid : String) (acc : List TrustAtom)
    (h : ∀ kv ∈ cats, ∀ x ∈ kv.2, x.product_id ≠ pid) :
    cats.foldl (fun acc kv => acc ++ kv.2.filter (fun a => a.product_id = pid)) acc = acc := by
  induction cats generalizing acc with
  | nil => rfl
  | cons kv rest ih =>
    have hf : kv.2.filter (fun a => a.product_id = pid) = [] := by
      rw [List.filter_eq_nil_iff]
      intro x hx
      simpa using h kv (by simp) x hx
    rw [List.foldl_cons, hf, List.append_nil]
    exact ih acc (fun kv2 hm x hx => h kv2 (by simp [hm]) x hx)

/-- Claim C9: starting from storage holding nothing for a product id,
storing N atoms carrying that id via store_all and then querying
get_trust_atoms_by_product returns exactly those N atoms in order, with no
loss and no duplication. -/
theorem storeAll_then_getByProduct (s0 : StorageState) (atoms : List TrustAtom)
    (pid : String)
    (hpid : ∀ x ∈ atoms, x.product_id = pid)
    (hnew : lookupFile s0.products pid = none)
    (hcats : ∀ kv ∈ s0.categories, ∀ x ∈ kv.2, x.product_id ≠ pid) :
    getTrustAtomsByProduct (storeAllList s0 atoms) pid = atoms := by
  cases atoms with
  | nil =>
    show getTrustAtomsByProduct s0 pid = []
    simp only [getTrustAtomsByProduct, hnew]
    exact catScan_nil s0.categories pid [] hcats
  | cons a rest =>
    have hpa : a.product_id = pid := hpid a (by simp)
    have h1 : lookupFile (storeAll s0 a).products pid = some [a] := by
      rw [storeAll_products, hpa, lookupFile_storeInFile, hnew]
      rfl
    have h2 := storeAllList_products rest (storeAll s0 a) pid [a]
      (fun x hx => hpid x (by simp [hx])) h1
    have h3 : storeAllList s0 (a :: rest) = storeAllList (storeAll s0 a) rest := rfl
    rw [h3]
    simp only [getTrustAtomsByProduct, h2]
    rfl

/-- Claim C9 witness: two concrete atoms for prod_x stored into empty
storage are both returned. -/
theorem storeAll_then_getByProduct_witness :
    getTrustAtomsByProduct (storeAllList emptyStorage [rtAtom1, rtAtom2]) "prod_x"
      = [rtAtom1, rtAtom2] :=
  storeAll_then_getByProduct emptyStorage [rtAtom1, rtAtom2] "prod_x"
    (by with_unfolding_all decide) (by with_unfolding_all decide)
    (by with_unfolding_all decide)

/-- The end flag after scanning an append is the end flag of the second
part started from the end flag of the first. -/
theorem endFlag_append (a b : List Char) (f : Bool) :
    endFlag (a ++ b) f = endFlag b (endFlag a f) := by
  induction a generalizing f with
  | nil => rfl
  | cons c rest ih => simp [endFlag, ih]

/-- Word counting splits over an append through the end flag. -/
theorem cwAux_append (a b : List Char) (f : Bool) :
    cwAux (a ++ b) f = cwAux a f + cwAux b (endFlag a f) := by
  induction a generalizing f with
  | nil => simp [cwAux, endFlag]
  | cons c rest ih =>
    by_cases h : wsChar c = true
    · simp [cwAux, endFlag, h, ih]
    · simp [cwAux, endFlag, h, ih, Nat.add_assoc]

/-- Joining with ". " adds word counts exactly when the left part ends in a
non-whitespace character: the period glues onto its last word. -/
theorem countWords_join (a b : List Char) (ha : endFlag a false = true) :
    countWords (a ++ '.' :: ' ' :: b) = countWords a + countWords b := by
  show cwAux (a ++ '.' :: ' ' :: b) false = cwAux a false + cwAux b false
  rw [cwAux_append, ha]
  have : cwAux ('.' :: ' ' :: b) true = cwAux b false := by
    simp [cwAux, wsChar]
  rw [this]

/-- A ". "-joined text ends in non-whitespace whenever the appended
sentence does. -/
theorem endFlag_join (a b : List Char) (hb : endFlag b false = true) :
    endFlag (a ++ '.' :: ' ' :: b) false = true := by
  rw [endFlag_append]
  show endFlag b (!wsChar ' ') = true
  simpa [wsChar] using hb

/-- The accumulation loop of _rule_based_summary keeps the summary's word
count within the budget, provided the starting sentence is within budget
and every sentence ends in a non-whitespace character (so the tracked count
equals the true count). -/
theorem greedyAcc_bound (maxLen : Nat) (ss : List (List Char)) :
    ∀ (summary : List Char) (wc : Nat),
    countWords summary = wc → wc ≤ maxLen → endFlag summary false = true →
    (∀ s ∈ ss, endFlag s false = true) →
    countWords (greedyAcc maxLen ss summary wc) ≤ maxLen := by
  induction ss with
  | nil =>
    intro summary wc hcw hle _ _
    simpa [greedyAcc, hcw] using hle
  | cons s rest ih =>
    intro summary wc hcw hle hef hss
    simp only [greedyAcc]
    by_cases h1 : wc < maxLen
    · rw [if_pos h1]
      by_cases h2 : wc + countWords s ≤ maxLen
      · rw [if_pos h2]
        refine ih (summary ++ '.' :: ' ' :: s) (wc + countWords s) ?_ h2 ?_ ?_
        · rw [countWords_join summary s hef, hcw]
        · exact endFlag_join summary s (hss s (by simp))
        · intro t ht
          exact hss t (by simp [ht])
      · rw [if_neg h2]
        exact ih summary wc hcw hle hef (fun t ht => hss t (by simp [ht]))
    · rw [if_neg h1]
      simpa [hcw] using hle

/-- Claim C7 counterexample: thirty-one words without sentence punctuation
produce (with budget 30) a rule-based summary of 31 words — the whole text
is the single retained sentence and is returned in full, exceeding the
budget. -/
theorem generateSummary_budget_counterexample :
    ¬ countWords (generateSummary longUnpunctuated 30).data ≤ 30 := by
  with_unfolding_all decide

/-- Claim C7 (amended): generate_summary returns the text unchanged when
its word count is at most max_length; otherwise the rule-based summary
stays within the budget provided the retained-sentence list is nonempty,
its first sentence is within the budget, and no retained sentence ends in
whitespace (the loop tracks per-sentence word counts, so a first sentence
over budget is returned whole, a text with no sentence of more than 3
words is returned whole, and trailing whitespace makes the period count as
an extra word). -/
theorem generateSummary_spec (text : String) (maxLen : Nat) :
    (countWords text.data ≤ maxLen → generateSummary text maxLen = text) ∧
    (∀ s0 rest, retainedSentences text = s0 :: rest →
      countWords s0 ≤ maxLen →
      (∀ s ∈ retainedSentences text, endFlag s false = true) →
      countWords (generateSummary text maxLen).data ≤ maxLen) := by
  constructor
  · intro h
    simp [generateSummary, h]
  · intro s0 rest hret hfirst hef
    by_cases h : countWords text.data ≤ maxLen
    · simp [generateSummary, h]
    · simp only [generateSummary, if_neg h, ruleBasedSummary, hret]
      exact greedyAcc_bound maxLen rest s0 (countWords s0) rfl hfirst
        (hef s0 (by simp [hret]))
        (fun t ht => hef t (by simp [hret, ht]))

/-- Claim C7 witness: a short text is returned unchanged, and a three
sentence text over budget 5 is summarized to at most 5 words. -/
theorem generateSummary_spec_witness :
    generateSummary "a b" 30 = "a b" ∧
    countWords (generateSummary threeSentences 5).data ≤ 5 :=
  ⟨(generateSummary_spec "a b" 30).1 (by with_unfolding_all decide),
   (generateSummary_spec threeSentences 5).2 "one two three four".data
     ["five six seven eight".data]
     (by with_unfolding_all decide) (by with_unfolding_all decide)
     (by with_unfolding_all decide)⟩

/-- Every character of a leading segment occurs in the list it leads. -/
theorem startsWithL_mem (p : List Char) :
    ∀ l, startsWithL p l = true → ∀ c ∈ p, c ∈ l := by
  induction p with
  | nil => intro l _ c hc; simp at hc
  | cons d ps ih =>
    intro l h c hc
    cases l with
    | nil => simp [startsWithL] at h
    | cons e ls =>
      simp only [startsWithL, Bool.and_eq_true, beq_iff_eq] at h
      rcases List.mem_cons.mp hc with rfl | hc2
      · simp [h.1]
      · exact List.mem_cons_of_mem _ (ih ls h.2 c hc2)

/-- urlTail only succeeds when the scheme is a leading segment. -/
theorem urlTail_some {pre l r : List Char} (h : urlTail pre l = some r) :
    startsWithL pre l = true := by
  by_cases hs : startsWithL pre l = true
  · exact hs
  · simp [urlTail, hs] at h

/-- A URL match forces a colon to occur in the list. -/
theorem urlMatchOpt_colon {l r : List Char} (h : urlMatchOpt l = some r) :
    ':' ∈ l := by
  unfold urlMatchOpt at h
  cases h1 : urlTail ("https://".data) l with
  | some r2 =>
    exact startsWithL_mem _ l (urlTail_some h1) ':' (by decide)
  | none =>
    rw [h1] at h
    exact startsWithL_mem _ l (urlTail_some h) ':' (by decide)

/-- URL removal is the identity on colon-free lists. -/
theorem stripUrlsF_no_colon :
    ∀ (fuel : Nat) (l : List Char), (∀ c ∈ l, c ≠ ':') → l.length ≤ fuel →
    stripUrlsF fuel l = l := by
  intro fuel
  induction fuel with
  | zero => intro l _ _; rfl
  | succ n ih =>
    intro l hc hlen
    cases l with
    | nil => rfl
    | cons c rest =>
      cases hm : urlMatchOpt (c :: rest) with
      | some r => exact absurd rfl (hc ':' (urlMatchOpt_colon hm))
      | none =>
        simp only [stripUrlsF, hm]
        rw [ih rest (fun d hd => hc d (List.mem_cons_of_mem _ hd))
          (Nat.le_of_succ_le_succ hlen)]

/-- Every character surviving the special-character pass is kept. -/
theorem replSpecial_mem (l : List Char) (c : Char) (h : c ∈ replSpecial l) :
    keepChar c = true := by
  simp only [replSpecial, List.mem_map] at h
  obtain ⟨d, _, hd⟩ := h
  by_cases hk : keepChar d = true
  · rw [if_pos hk] at hd; rwa [hd] at hk
  · rw [if_neg hk] at hd; rw [← hd]; decide

/-- The special-character pass is the identity on kept characters. -/
theorem replSpecial_id (l : List Char) (h : ∀ c ∈ l, keepChar c = true) :
    replSpecial l = l := by
  induction l with
  | nil => rfl
  | cons c rest ih =>
    simp only [replSpecial, List.map_cons, if_pos (h c (by simp))]
    have := ih (fun d hd => h d (List.mem_cons_of_mem _ hd))
    simpa [replSpecial] using this

/-- Characters of a collapsed list are emitted spaces or non-whitespace
characters of the input. -/
theorem collapseWsF_mem :
    ∀ (l : List Char) (f : Bool) (c : Char), c ∈ collapseWsF l f →
    c = ' ' ∨ (c ∈ l ∧ wsChar c = false) := by
  intro l
  induction l with
  | nil => intro f c h; simp [collapseWsF] at h
  | cons d rest ih =>
    intro f c h
    by_cases hd : wsChar d = true
    · cases f with
      | true =>
        rw [show collapseWsF (d :: rest) true = collapseWsF rest true by
          simp [collapseWsF, hd]] at h
        rcases ih true c h with h3 | ⟨h4, h5⟩
        · exact Or.inl h3
        · exact Or.inr ⟨List.mem_cons_of_mem _ h4, h5⟩
      | false =>
        rw [show collapseWsF (d :: rest) false = ' ' :: collapseWsF rest true by
          simp [collapseWsF, hd]] at h
        rcases List.mem_cons.mp h with rfl | h2
        · exact Or.inl rfl
        · rcases ih true c h2 with h3 | ⟨h4, h5⟩
          · exact Or.inl h3
          · exact Or.inr ⟨List.mem_cons_of_mem _ h4, h5⟩
    · rw [show collapseWsF (d :: rest) f = d :: collapseWsF rest false by
        simp [collapseWsF, hd]] at h
      rcases List.mem_cons.mp h with rfl | h2
      · exact Or.inr ⟨by simp, by simpa using hd⟩
      · rcases ih false c h2 with h3 | ⟨h4, h5⟩
        · exact Or.inl h3
        · exact Or.inr ⟨List.mem_cons_of_mem _ h4, h5⟩

/-- Collapsing with the in-run flag set never emits a leading whitespace
character. -/
theorem collapseWsF_head_true :
    ∀ (l : List Char) (c : Char), (collapseWsF l true).head? = some c →
    wsChar c = false := by
  intro l
  induction l with
  | nil => intro c h; simp [collapseWsF] at h
  | cons d rest ih =>
    intro c h
    by_cases hd : wsChar d = true
    · rw [show collapseWsF (d :: rest) true = collapseWsF rest true by
        simp [collapseWsF, hd]] at h
      exact ih c h
    · rw [show collapseWsF (d :: rest) true = d :: collapseWsF rest false by
        simp [collapseWsF, hd]] at h
      simp only [List.head?_cons, Option.some.injEq] at h
      rw [← h]
      simpa using hd

/-- Extending a list with no adjacent whitespace by a compatible head. -/
theorem noAdjWs_cons (a : Char) (l : List Char)
    (hhead : ∀ b, l.head? = some b → ¬(wsChar a = true ∧ wsChar b = true))
    (hl : noAdjWs l) : noAdjWs (a :: l) := by
  cases l with
  | nil => trivial
  | cons b rest => exact ⟨hhead b rfl, hl⟩

/-- The tail of a list with no adjacent whitespace keeps the property. -/
theorem noAdjWs_tail {a : Char} {l : List Char} (h : noAdjWs (a :: l)) :
    noAdjWs l := by
  cases l with
  | nil => trivial
  | cons b rest => exact h.2

/-- A left part of an append keeps the no-adjacent-whitespace property. -/
theorem noAdjWs_append_left :
    ∀ (xs ys : List Char), noAdjWs (xs ++ ys) → noAdjWs xs := by
  intro xs ys
  induction xs with
  | nil => intro _; trivial
  | cons a xs2 ih =>
    intro h
    cases xs2 with
    | nil => trivial
    | cons b xs3 =>
      have h2 : noAdjWs ((b :: xs3) ++ ys) := noAdjWs_tail h
      exact ⟨h.1, ih h2⟩

/-- A right part of an append keeps the no-adjacent-whitespace property. -/
theorem noAdjWs_append_right :
    ∀ (xs ys : List Char), noAdjWs (xs ++ ys) → noAdjWs ys := by
  intro xs ys
  induction xs with
  | nil => intro h; exact h
  | cons a xs2 ih => intro h; exact ih (noAdjWs_tail h)

/-- Collapsed whitespace never leaves two adjacent whitespace
characters. -/
theorem collapseWsF_noAdjWs :
    ∀ (l : List Char) (f : Bool), noAdjWs (collapseWsF l f) := by
  intro l
  induction l with
  | nil => intro f; trivial
  | cons d rest ih =>
    intro f
    by_cases hd : wsChar d = true
    · cases f with
      | true =>
        rw [show collapseWsF (d :: rest) true = collapseWsF rest true by
          simp [collapseWsF, hd]]
        exact ih true
      | false =>
        rw [show collapseWsF (d :: rest) false = ' ' :: collapseWsF rest true by
          simp [collapseWsF, hd]]
        refine noAdjWs_cons ' ' _ ?_ (ih true)
        intro b hb hcontra
        rw [collapseWsF_head_true rest b hb] at hcontra
        exact Bool.false_ne_true hcontra.2
    · rw [show collapseWsF (d :: rest) f = d :: collapseWsF rest false by
        simp [collapseWsF, hd]]
      refine noAdjWs_cons d _ ?_ (ih false)
      intro b _ hcontra
      exact hd hcontra.1

/-- dropWhile removes a leading block of satisfying characters. -/
theorem dropWhile_decomp (p : Char → Bool) :
    ∀ (l : List Char), ∃ t, t ++ l.dropWhile p = l := by
  intro l
  induction l with
  | nil => exact ⟨[], rfl⟩
  | cons a rest ih =>
    by_cases h : p a = true
    · obtain ⟨t, ht⟩ := ih
      exact ⟨a :: t, by simp [List.dropWhile_cons, h, ht]⟩
    · exact ⟨[], by simp [List.dropWhile_cons, h]⟩

/-- The head of a dropWhile result fails the predicate. -/
theorem dropWhile_head (p : Char → Bool) :
    ∀ (l : List Char) (c : Char), (l.dropWhile p).head? = some c → p c = false := by
  intro l
  induction l with
  | nil => intro c h; simp at h
  | cons a rest ih =>
    intro c h
    by_cases ha : p a = true
    · rw [List.dropWhile_cons, if_pos ha] at h
      exact ih c h
    · rw [List.dropWhile_cons, if_neg ha] at h
      simp only [List.head?_cons, Option.some.injEq] at h
      rw [← h]
      simpa using ha

/-- dropWhile is the identity when the head (if any) fails the
predicate. -/
theorem dropWhile_id (p : Char → Bool) (l : List Char)
    (h : ∀ c, l.head? = some c → p c = false) : l.dropWhile p = l := by
  cases l with
  | nil => rfl
  | cons a rest =>
    rw [List.dropWhile_cons, if_neg]
    simp [h a rfl]

/-- The last element of a reversed list is the head of the original. -/
theorem getLast?_reverse_head (l : List Char) :
    l.reverse.getLast? = l.head? := by
  cases l with
  | nil => rfl
  | cons a rest => simp [List.reverse_cons]

/-- rstripL cuts a (possibly empty) trailing block off the list. -/
theorem rstripL_decomp (l : List Char) : ∃ t, rstripL l ++ t = l := by
  obtain ⟨t, ht⟩ := dropWhile_decomp wsChar l.reverse
  refine ⟨t.reverse, ?_⟩
  have := congrArg List.reverse ht
  simpa [rstripL, List.reverse_append] using this

/-- The last character of an rstripL result is not whitespace. -/
theorem rstripL_getLast (l : List Char) (c : Char)
    (h : (rstripL l).getLast? = some c) : wsChar c = false := by
  rw [rstripL, getLast?_reverse_head] at h
  exact dropWhile_head wsChar l.reverse c h

/-- rstripL is the identity when the last character (if any) is not
whitespace. -/
theorem rstripL_id (l : List Char)
    (h : ∀ c, l.getLast? = some c → wsChar c = false) : rstripL l = l := by
  rw [rstripL, dropWhile_id]
  · exact List.reverse_reverse l
  · intro c hc
    refine h c ?_
    rw [← getLast?_reverse_head, List.reverse_reverse] at hc
    exact hc

/-- The head of a nonempty left part of an append is the head of the
whole. -/
theorem head?_append_left {xs : List Char} (t : List Char) (c : Char)
    (h : xs.head? = some c) : (xs ++ t).head? = some c := by
  cases xs with
  | nil => simp at h
  | cons a rest => simpa using h

/-- Whitespace characters are not word characters. -/
theorem ws_not_wordChar (c : Char) (h : wsChar c = true) : wordChar c = false := by
  simp only [wsChar, Bool.or_eq_true, decide_eq_true_eq] at h
  rcases h with ((((rfl | rfl) | rfl) | rfl) | rfl) | rfl
  all_goals decide

/-- Collapsing with either flag agrees when the list does not start with
whitespace. -/
theorem collapseWsF_flag_eq (l : List Char)
    (h : ∀ c, l.head? = some c → wsChar c = false) :
    collapseWsF l true = collapseWsF l false := by
  cases l with
  | nil => rfl
  | cons a rest => simp [collapseWsF, h a rfl]

/-- Collapsing is the identity on lists whose whitespace is single plain
spaces with no two adjacent. -/
theorem collapseWsF_id :
    ∀ (l : List Char), (∀ c ∈ l, wsChar c = true → c = ' ') → noAdjWs l →
    collapseWsF l false = l := by
  intro l
  induction l with
  | nil => intro _ _; rfl
  | cons d rest ih =>
    intro hsp hadj
    by_cases hd : wsChar d = true
    · have hd2 : d = ' ' := hsp d (by simp) hd
      subst hd2
      rw [show collapseWsF (' ' :: rest) false = ' ' :: collapseWsF rest true by
        simp [collapseWsF, wsChar]]
      have hhead : ∀ c, rest.head? = some c → wsChar c = false := by
        intro c hc
        cases rest with
        | nil => simp at hc
        | cons b r =>
          simp only [List.head?_cons, Option.some.injEq] at hc
          rw [← hc]
          by_cases hb : wsChar b = true
          · exact absurd ⟨by decide, hb⟩ hadj.1
          · simpa using hb
      rw [collapseWsF_flag_eq rest hhead,
        ih (fun c hc hw => hsp c (List.mem_cons_of_mem _ hc) hw) (noAdjWs_tail hadj)]
    · rw [show collapseWsF (d :: rest) false = d :: collapseWsF rest false by
        simp [collapseWsF, hd]]
      rw [ih (fun c hc hw => hsp c (List.mem_cons_of_mem _ hc) hw) (noAdjWs_tail hadj)]

/-- The output of clean_text consists of word characters, apostrophes and
plain spaces, with no two adjacent whitespace characters and no whitespace
at either end. -/
theorem cleanL_props (l : List Char) :
    (∀ c ∈ cleanL l, cleanChar c) ∧ noAdjWs (cleanL l) ∧
    (∀ c, (cleanL l).head? = some c → wsChar c = false) ∧
    (∀ c, (cleanL l).getLast? = some c → wsChar c = false) := by
  by_cases hl : l = []
  · subst hl
    refine ⟨by simp [cleanL], by simp [cleanL]; trivial, by simp [cleanL], by simp [cleanL]⟩
  · simp only [cleanL, if_neg hl]
    have hmem3 : ∀ c ∈ collapseWs (replSpecial (stripUrls l)), cleanChar c := by
      intro c hc
      rcases collapseWsF_mem (replSpecial (stripUrls l)) false c hc with rfl | ⟨hc2, hw⟩
      · exact Or.inr (Or.inr rfl)
      · have hk := replSpecial_mem _ c hc2
        simp only [keepChar, Bool.or_eq_true, decide_eq_true_eq] at hk
        rcases hk with (hk1 | hk2) | hk3
        · exact Or.inl hk1
        · rw [hw] at hk2; exact absurd hk2 (by decide)
        · exact Or.inr (Or.inl hk3)
    have hadj3 : noAdjWs (collapseWs (replSpecial (stripUrls l))) :=
      collapseWsF_noAdjWs (replSpecial (stripUrls l)) false
    obtain ⟨t1, ht1⟩ := dropWhile_decomp wsChar (collapseWs (replSpecial (stripUrls l)))
    obtain ⟨t2, ht2⟩ := rstripL_decomp (lstripL (collapseWs (replSpecial (stripUrls l))))
    refine ⟨?_, ?_, ?_, ?_⟩
    · intro c hc
      apply hmem3
      have hc2 : c ∈ lstripL (collapseWs (replSpecial (stripUrls l))) := by
        rw [← ht2]
        exact List.mem_append.mpr (Or.inl hc)
      rw [← ht1]
      exact List.mem_append.mpr (Or.inr hc2)
    · have h1 : noAdjWs (lstripL (collapseWs (replSpecial (stripUrls l)))) := by
        rw [← ht1] at hadj3
        exact noAdjWs_append_right t1 _ hadj3
      rw [← ht2] at h1
      exact noAdjWs_append_left _ t2 h1
    · intro c hc
      have h2 : (lstripL (collapseWs (replSpecial (stripUrls l)))).head? = some c := by
        rw [← ht2]
        exact head?_append_left t2 c hc
      exact dropWhile_head wsChar _ c h2
    · intro c hc
      exact rstripL_getLast _ c hc

/-- clean_text is the identity on lists already in cleaned form. -/
theorem cleanL_fixed (u : List Char)
    (hmem : ∀ c ∈ u, cleanChar c)
    (hadj : noAdjWs u)
    (hhead : ∀ c, u.head? = some c → wsChar c = false)
    (hlast : ∀ c, u.getLast? = some c → wsChar c = false) :
    cleanL u = u := by
  by_cases hu : u = []
  · subst hu; rfl
  · simp only [cleanL, if_neg hu]
    have h1 : stripUrls u = u := by
      apply stripUrlsF_no_colon
      · intro c hc he
        subst he
        rcases hmem ':' hc with hwd | hap | hsp
        · exact absurd hwd (by decide)
        · exact absurd hap (by decide)
        · exact absurd hsp (by decide)
      · exact Nat.le_succ _
    rw [h1]
    have h2 : replSpecial u = u := by
      apply replSpecial_id
      intro c hc
      rcases hmem c hc with hwd | hap | hsp
      · simp [keepChar, hwd]
      · subst hap; decide
      · subst hsp; decide
    rw [h2]
    have h3 : collapseWs u = u := by
      apply collapseWsF_id
      · intro c hc hw
        rcases hmem c hc with hwd | hap | hsp
        · rw [ws_not_wordChar c hw] at hwd
          exact absurd hwd (by decide)
        · subst hap; exact absurd hw (by decide)
        · exact hsp
      · exact hadj
    rw [h3]
    have h4 : lstripL u = u := dropWhile_id wsChar u hhead
    show rstripL (lstripL u) = u
    rw [h4, rstripL_id u hlast]

/-- clean_text on character lists is idempotent. -/
theorem cleanL_idempotent (l : List Char) : cleanL (cleanL l) = cleanL l := by
  obtain ⟨h1, h2, h3, h4⟩ := cleanL_props l
  exact cleanL_fixed (cleanL l) h1 h2 h3 h4

/-- Claim C8: clean_text is idempotent on every input string, the empty
string included. -/
theorem cleanText_idempotent (s : String) : cleanText (cleanText s) = cleanText s := by
  show (⟨cleanL (String.data ⟨cleanL s.data⟩)⟩ : String) = (⟨cleanL s.data⟩ : String)
  rw [show String.data (⟨cleanL s.data⟩ : String) = cleanL s.data from rfl,
    cleanL_idempotent]
